import Mathlib

/-!
Verification of the MIRS category-detection and coaching pipeline
(`intention-detector.ts`, `dialogic-feedback.ts`).

Text is embedded as `List Char`. JavaScript string operations used by the
source (`replace`, `trim`, `toLowerCase`, `includes`, regex `test` with the
case-insensitive flag) are embedded below. The configuration tables
`CATEGORY_LABELS`, `MIRS_CATEGORIES` and `SYNONYMS` live in
`mirs-categories.ts`, which is not part of the repository source; the
detector is therefore parameterised over a `DetectorConfig`, and trigger
patterns are modelled as literal phrases matched case-insensitively (the
form the specification's examples take). `Char.toLower` stands in for
JavaScript `toLowerCase` (they agree on ASCII).
-/

namespace RubricFeedback

/-- The apostrophe character, written via its code point. -/
def apostropheChar : Char := Char.ofNat 39

/-- JavaScript `\s` (the whitespace class used by `replace(/\s+/g, " ")`
and by `String.prototype.trim`). -/
def isJsWs (c : Char) : Bool :=
  c == ' ' || c == '\t' || c == '\n' || c == '\r' ||
  c == Char.ofNat 11 || c == Char.ofNat 12 ||
  c == Char.ofNat 0xa0 || c == Char.ofNat 0x1680 ||
  (decide (0x2000 ≤ c.toNat) && decide (c.toNat ≤ 0x200a)) ||
  c == Char.ofNat 0x2028 || c == Char.ofNat 0x2029 || c == Char.ofNat 0x202f ||
  c == Char.ofNat 0x205f || c == Char.ofNat 0x3000 || c == Char.ofNat 0xfeff

/-- JavaScript line terminators, which `.` in a regular expression does not
match. -/
def isLineTerm (c : Char) : Bool :=
  c == '\n' || c == '\r' || c == Char.ofNat 0x2028 || c == Char.ofNat 0x2029

/-- Lowercase a character sequence (JS `toLowerCase`, ASCII fragment). -/
def lowerList (s : List Char) : List Char := s.map Char.toLower

/-- JS `String.prototype.trim`: strip leading and trailing whitespace. -/
def jsTrim (s : List Char) : List Char :=
  ((s.dropWhile isJsWs).reverse.dropWhile isJsWs).reverse

/-- Helper for `collapseWs`: the flag records whether the previous input
character was whitespace (i.e. we are inside a run already replaced). -/
def collapseAux : Bool → List Char → List Char
  | _, [] => []
  | prevWs, c :: rest =>
    if isJsWs c then
      if prevWs then collapseAux true rest else ' ' :: collapseAux true rest
    else c :: collapseAux false rest

/-- JS `replace(/\s+/g, " ")`: every maximal whitespace run becomes one
space. -/
def collapseWs (s : List Char) : List Char := collapseAux false s

/-- The two `replace` calls of `normalizeText`
(`replace(/[""]/g, '"')` and `replace(/'/g, "'")`, lines 120 of
`intention-detector.ts`). Both character classes in the source file are
plain ASCII quotes, so each replacement maps a quote character to itself. -/
def replaceQuotes (s : List Char) : List Char :=
  (s.map (fun c => if c == '"' then '"' else c)).map
    (fun c => if c == apostropheChar then apostropheChar else c)

/-- `IntentionDetector.normalizeText` (`intention-detector.ts` 116-126):
empty guard, quote replacement, whitespace collapse, trim, lowercase. -/
def normalizeText (text : List Char) : List Char :=
  if text = [] then []
  else lowerList (jsTrim (collapseWs (replaceQuotes text)))

/-- Case-insensitive prefix test (a literal regex atom matching at the head
of a string under the `i` flag). -/
def startsWithCI (p s : List Char) : Bool :=
  (lowerList p).isPrefixOf (lowerList s)

/-- Substring test: does `p` occur contiguously inside `s`
(JS `String.prototype.includes`)? -/
def listContains (p : List Char) : List Char → Bool
  | [] => p.isEmpty
  | c :: rest => p.isPrefixOf (c :: rest) || listContains p rest

/-- `new RegExp(pattern, "i").test(s)` for a literal pattern: a
case-insensitive substring search. -/
def regexTestI (p s : List Char) : Bool :=
  listContains (lowerList p) (lowerList s)

/-- The quote delimiters of the character class `[""'\\']` on line 77 of
`intention-detector.ts`: straight double quote and apostrophe. -/
def isQuoteChar (c : Char) : Bool := c == '"' || c == apostropheChar

/-- Search for the closing quote: `.*[Q]` succeeding on this suffix means a
quote character occurs before any line terminator. -/
def closeSearch : List Char → Bool
  | [] => false
  | c :: rest =>
    if isQuoteChar c then true
    else if isLineTerm c then false
    else closeSearch rest

/-- After an opening quote: `.*P.*[Q]` — skip non-terminator characters,
match the literal pattern case-insensitively, then find a closing quote. -/
def afterOpen (p : List Char) : List Char → Bool
  | [] => false
  | c :: rest =>
    (startsWithCI p (c :: rest) && closeSearch ((c :: rest).drop p.length)) ||
    (!isLineTerm c && afterOpen p rest)

/-- `quotedPattern.test(userText)` for the regex
`[""'\\'].*pattern.*[""'\\']` with flag `i`
(`intention-detector.ts` line 77-78). -/
def quotedTest (p : List Char) : List Char → Bool
  | [] => false
  | c :: rest => (isQuoteChar c && afterOpen p rest) || quotedTest p rest

/-- The fixed MIRS category enumeration (`MirsCategory`). -/
inductive MirsCategory
  | OPEN | GATH | PERS | SHARE | AGREE | CLOSE | REL
deriving DecidableEq

/-- The key string of each category (the record keys of the configuration
tables). -/
def categoryKey : MirsCategory → List Char
  | MirsCategory.OPEN => "OPEN".data
  | MirsCategory.GATH => "GATH".data
  | MirsCategory.PERS => "PERS".data
  | MirsCategory.SHARE => "SHARE".data
  | MirsCategory.AGREE => "AGREE".data
  | MirsCategory.CLOSE => "CLOSE".data
  | MirsCategory.REL => "REL".data

/-- A conversation turn role. -/
inductive Role
  | user | assistant
deriving DecidableEq

/-- `ConversationTurn` (`intention-detector.ts` 20-23). -/
structure ConvTurn where
  role : Role
  content : List Char
deriving DecidableEq

/-- The configuration tables imported from `mirs-categories.ts` (not in the
repository source): association lists in declaration order, as iterated by
`Object.entries`. Trigger patterns are literal phrases. -/
structure DetectorConfig where
  categoryLabels : List (MirsCategory × List Char)
  mirsCategories : List (MirsCategory × List (List Char))
  synonyms : List (MirsCategory × List (List Char))

/-- `CategoryDetectionResult`. -/
structure DetectResult where
  category : MirsCategory
  reason : List Char
deriving DecidableEq

def directMatchReason : List Char := "direct category match".data

def keptPreviousReason : List Char := "kept previous due to ambiguity".data

def defaultReason : List Char := "default to OPEN (no clear signal)".data

/-- Reason string `matched item '<item>'`. -/
def itemReason (item : List Char) : List Char :=
  "matched item ".data ++ apostropheChar :: (item ++ [apostropheChar])

/-- Reason string `trigger '<pattern>'`. -/
def triggerReason (p : List Char) : List Char :=
  "trigger ".data ++ apostropheChar :: (p ++ [apostropheChar])

/-- Step 1 of `detect` (lines 47-56): first configured entry whose key or
label equals the normalized text (labels compared lowercased). -/
def labelStep : List (MirsCategory × List Char) → List Char → Option MirsCategory
  | [], _ => none
  | (key, label) :: rest, normalized =>
    if normalized = lowerList (categoryKey key) ∨ normalized = lowerList label
    then some key
    else labelStep rest normalized

/-- Inner loop of step 2: first item contained in the normalized text. -/
def findItem : List (List Char) → List Char → Option (List Char)
  | [], _ => none
  | item :: rest, normalized =>
    if listContains (lowerList item) normalized then some item
    else findItem rest normalized

/-- Step 2 of `detect` (lines 58-69): item-name substring match. -/
def itemStep : List (MirsCategory × List (List Char)) → List Char →
    Option (MirsCategory × List Char)
  | [], _ => none
  | (cat, items) :: rest, normalized =>
    match findItem items normalized with
    | some item => some (cat, item)
    | none => itemStep rest normalized

/-- Inner loop of step 3: first pattern that tests true on the normalized
text and is not bracketed by quotes in the original text. -/
def findTrigger : List (List Char) → List Char → List Char → Option (List Char)
  | [], _, _ => none
  | p :: rest, normalized, userText =>
    if regexTestI p normalized then
      if quotedTest p userText then findTrigger rest normalized userText
      else some p
    else findTrigger rest normalized userText

/-- Step 3 of `detect` (lines 71-89): regex trigger patterns with the
quoted-span skip. -/
def triggerStep : List (MirsCategory × List (List Char)) → List Char → List Char →
    Option (MirsCategory × List Char)
  | [], _, _ => none
  | (cat, pats) :: rest, normalized, userText =>
    match findTrigger pats normalized userText with
    | some p => some (cat, p)
    | none => triggerStep rest normalized userText

/-- `category in MIRS_CATEGORIES` for the LLM's category string: look the
string up among the configured category keys. -/
def lookupCategory : List (MirsCategory × List (List Char)) → List Char →
    Option MirsCategory
  | [], _ => none
  | (cat, _) :: rest, s =>
    if categoryKey cat = s then some cat else lookupCategory rest s

/-- `IntentionDetector.detect` (`intention-detector.ts` 40-114). The
`lastCategory` field is threaded explicitly; the returned pair is
(detection result, updated `lastCategory`). The LLM call of step 5 is an
oracle `llm` from the history to an optional `(category, reason)` pair
(`none` models a failed `fallbackLlm`). -/
def detect (cfg : DetectorConfig) (llm : List ConvTurn → Option (List Char × List Char))
    (useLlmFallback : Bool) (lastCategory : Option MirsCategory)
    (userText : List Char) (history : List ConvTurn) :
    DetectResult × Option MirsCategory :=
  match labelStep cfg.categoryLabels (normalizeText userText) with
  | some key => (⟨key, directMatchReason⟩, some key)
  | none =>
    match itemStep cfg.mirsCategories (normalizeText userText) with
    | some (cat, item) => (⟨cat, itemReason item⟩, some cat)
    | none =>
      match triggerStep cfg.synonyms (normalizeText userText) userText with
      | some (cat, p) => (⟨cat, triggerReason p⟩, some cat)
      | none =>
        match lastCategory with
        | some c => (⟨c, keptPreviousReason⟩, some c)
        | none =>
          match (if useLlmFallback then llm history else none) with
          | some (catStr, reason) =>
            match lookupCategory cfg.mirsCategories catStr with
            | some cat => (⟨cat, reason⟩, some cat)
            | none => (⟨MirsCategory.OPEN, defaultReason⟩, some MirsCategory.OPEN)
          | none => (⟨MirsCategory.OPEN, defaultReason⟩, some MirsCategory.OPEN)

/-- The role prefix of a rendered history piece
(`intention-detector.ts` line 169). -/
def rolePrefixChars : Role → List Char
  | Role.user => "LEARNER: ".data
  | Role.assistant => "DIALOGIC_FEEDBACK: ".data

/-- One rendered history piece: `prefix + turn.content.trim()`. -/
def renderPiece (t : ConvTurn) : List Char :=
  rolePrefixChars t.role ++ jsTrim t.content

/-- The loop of `createHistorySnippet` (lines 167-178), on the reversed
history (most recent first): accumulate `piece.length + 1`, break as soon
as the running total exceeds the budget, collect accepted pieces in
acceptance order (most recent first). -/
def collectRev (maxChars : Nat) : Nat → List ConvTurn → List (List Char)
  | _, [] => []
  | total, t :: rest =>
    if maxChars < total + ((renderPiece t).length + 1) then []
    else renderPiece t :: collectRev maxChars (total + ((renderPiece t).length + 1)) rest

/-- `buffer.join("\n")`. -/
def joinNl : List (List Char) → List Char
  | [] => []
  | [p] => p
  | p :: q :: rest => p ++ '\n' :: joinNl (q :: rest)

/-- `IntentionDetector.createHistorySnippet`
(`intention-detector.ts` 162-181). -/
def createHistorySnippet (maxChars : Nat) (history : List ConvTurn) : List Char :=
  joinNl (collectRev maxChars 0 history.reverse).reverse

/-- The detector's default `maxHistoryChars` (constructor, line 37). -/
def detectorDefaultMaxHistoryChars : Nat := 2400

/-- The loop of `trimHistoryToCharLimit` (`dialogic-feedback.ts` 127-145),
on the reversed history: accumulate trimmed content length plus a fixed
overhead of 20, break once the total reaches the budget and at least one
turn has been collected (`hasOne`). -/
def trimCollect (maxChars : Nat) : Nat → Bool → List ConvTurn → List ConvTurn
  | _, _, [] => []
  | total, hasOne, t :: rest =>
    if maxChars ≤ total + ((jsTrim t.content).length + 20) ∧ hasOne = true then []
    else t :: trimCollect maxChars (total + ((jsTrim t.content).length + 20)) true rest

/-- `DialogicFeedbackCoach.trimHistoryToCharLimit`
(`dialogic-feedback.ts` 127-145). -/
def trimHistoryToCharLimit (maxChars : Nat) (history : List ConvTurn) : List ConvTurn :=
  (trimCollect maxChars 0 false history.reverse).reverse

/-- The coach's default `maxHistoryChars` (constructor, line 47). -/
def coachDefaultMaxHistoryChars : Nat := 4000

/-- The streaming loop of `sendMessage` (`dialogic-feedback.ts` 495-513):
the completion stream is the list of its text deltas, the abort signal a
predicate on the check index (the loop checks `signal.aborted` once per
delta, after pulling it and before yielding it). Returns the emitted
deltas and, when the loop completes without observing an abort, the
accumulated `fullResponse` persisted by the assistant-role `saveMessage`
(`none` models that `saveMessage` is never called on that run). -/
def runStreamAux (aborted : Nat → Bool) (acc : List Char) :
    List (List Char) → Nat → List (List Char) × Option (List Char)
  | [], _ => ([], some acc)
  | d :: rest, i =>
    if aborted i then ([], none)
    else
      (d :: (runStreamAux aborted (acc ++ d) rest (i + 1)).1,
       (runStreamAux aborted (acc ++ d) rest (i + 1)).2)

/-- The streamed `sendMessage` run from the start of the delta loop. -/
def runStream (aborted : Nat → Bool) (deltas : List (List Char)) :
    List (List Char) × Option (List Char) :=
  runStreamAux aborted [] deltas 0

/-! ## Theorems -/

/-- C6: every `detect` call (label, item or trigger match, sticky fallback,
LLM fallback, or default) leaves `lastCategory` equal to the returned
category: the returned state is `some` of the returned result's category,
for every prior state — so the invariant is established by the first call
and preserved by all subsequent ones. -/
theorem c6_sticky_invariant (cfg : DetectorConfig)
    (llm : List ConvTurn → Option (List Char × List Char)) (u : Bool)
    (st : Option MirsCategory) (text : List Char) (hist : List ConvTurn) :
    (detect cfg llm u st text hist).2 = some (detect cfg llm u st text hist).1.category := by
  unfold detect
  repeat' split
  all_goals rfl

lemma collectRev_total_le (maxChars : Nat) :
    ∀ (l : List ConvTurn) (total : Nat),
      collectRev maxChars total l = [] ∨
      total + ((collectRev maxChars total l).map (fun p => p.length + 1)).sum ≤ maxChars := by
  intro l
  induction l with
  | nil => intro total; exact Or.inl rfl
  | cons t rest ih =>
    intro total
    unfold collectRev
    by_cases hc : maxChars < total + ((renderPiece t).length + 1)
    · rw [if_pos hc]
      exact Or.inl rfl
    · rw [if_neg hc]
      right
      rcases ih (total + ((renderPiece t).length + 1)) with h0 | hle
      · rw [h0]
        simp only [List.map_cons, List.map_nil, List.sum_cons, List.sum_nil]
        omega
      · simp only [List.map_cons, List.sum_cons]
        omega

lemma joinNl_length : ∀ (ps : List (List Char)), ps ≠ [] →
    (joinNl ps).length + 1 = (ps.map (fun p => p.length + 1)).sum := by
  intro ps
  induction ps with
  | nil => intro h; exact absurd rfl h
  | cons p rest ih =>
    intro _
    cases rest with
    | nil => simp [joinNl]
    | cons q rest' =>
      have hih := ih (by simp)
      simp only [joinNl, List.map_cons, List.sum_cons, List.length_append,
        List.length_cons] at hih ⊢
      omega

/-- C10: the classifier's history snippet never exceeds the configured
character budget: `createHistorySnippet` output length is at most
`maxHistoryChars`, even at the cost of an empty snippet. -/
theorem c10_snippet_within_budget (maxChars : Nat) (history : List ConvTurn) :
    (createHistorySnippet maxChars history).length ≤ maxChars := by
  unfold createHistorySnippet
  rcases hr : collectRev maxChars 0 history.reverse with _ | ⟨p, ps⟩
  · simp [joinNl]
  · rcases collectRev_total_le maxChars history.reverse 0 with h0 | hle
    · rw [hr] at h0
      cases h0
    · rw [hr] at hle
      have hrevne : (p :: ps).reverse ≠ [] := by simp
      have hlen := joinNl_length ((p :: ps).reverse) hrevne
      rw [List.map_reverse, List.sum_reverse] at hlen
      omega

/-- C4: after a successful detection left sticky memory `some c`, an
ambiguous turn (no label match, no item match, no unquoted trigger match)
returns the previous category with reason "kept previous due to
ambiguity", for every LLM oracle and fallback flag — the LLM branch is
never reached. -/
theorem c4_kept_previous (cfg : DetectorConfig)
    (llm : List ConvTurn → Option (List Char × List Char)) (u : Bool)
    (c : MirsCategory) (text : List Char) (hist : List ConvTurn)
    (hl : labelStep cfg.categoryLabels (normalizeText text) = none)
    (hi : itemStep cfg.mirsCategories (normalizeText text) = none)
    (ht : triggerStep cfg.synonyms (normalizeText text) text = none) :
    detect cfg llm u (some c) text hist = (⟨c, keptPreviousReason⟩, some c) := by
  unfold detect
  rw [hl, hi, ht]

/-- C5: with no sticky memory and the LLM fallback disabled, an ambiguous
turn (no label, item or unquoted trigger match) returns OPEN with reason
"default to OPEN (no clear signal)". -/
theorem c5_default_no_signal (cfg : DetectorConfig)
    (llm : List ConvTurn → Option (List Char × List Char))
    (text : List Char) (hist : List ConvTurn)
    (hl : labelStep cfg.categoryLabels (normalizeText text) = none)
    (hi : itemStep cfg.mirsCategories (normalizeText text) = none)
    (ht : triggerStep cfg.synonyms (normalizeText text) text = none) :
    detect cfg llm false none text hist =
      (⟨MirsCategory.OPEN, defaultReason⟩, some MirsCategory.OPEN) := by
  unfold detect
  rw [hl, hi, ht]
  rfl

/-- C7: when the LLM fallback runs and fails (`none`) or yields a category
string not among the configured category keys, `detect` returns the
default OPEN; and for every input whatsoever the returned category is a
member of the fixed closed MIRS enumeration. -/
theorem c7_llm_failure_defaults (cfg : DetectorConfig)
    (llm : List ConvTurn → Option (List Char × List Char))
    (text : List Char) (hist : List ConvTurn)
    (hl : labelStep cfg.categoryLabels (normalizeText text) = none)
    (hi : itemStep cfg.mirsCategories (normalizeText text) = none)
    (ht : triggerStep cfg.synonyms (normalizeText text) text = none)
    (hllm : ∀ s r, llm hist = some (s, r) → lookupCategory cfg.mirsCategories s = none) :
    detect cfg llm true none text hist =
      (⟨MirsCategory.OPEN, defaultReason⟩, some MirsCategory.OPEN) ∧
    ∀ (cfg' : DetectorConfig) (llm' : List ConvTurn → Option (List Char × List Char))
      (u' : Bool) (st' : Option MirsCategory) (text' : List Char) (hist' : List ConvTurn),
      (detect cfg' llm' u' st' text' hist').1.category ∈
        [MirsCategory.OPEN, MirsCategory.GATH, MirsCategory.PERS, MirsCategory.SHARE,
         MirsCategory.AGREE, MirsCategory.CLOSE, MirsCategory.REL] := by
  constructor
  · unfold detect
    rw [hl, hi, ht]
    have hif : (if true then llm hist else none) = llm hist := rfl
    rw [hif]
    rcases hx : llm hist with _ | ⟨s, r⟩
    · rfl
    · show (match lookupCategory cfg.mirsCategories s with
        | some cat => ((⟨cat, r⟩ : DetectResult), some cat)
        | none => ((⟨MirsCategory.OPEN, defaultReason⟩ : DetectResult), some MirsCategory.OPEN)) =
        (⟨MirsCategory.OPEN, defaultReason⟩, some MirsCategory.OPEN)
      rw [hllm s r hx]
  · intro cfg' llm' u' st' text' hist'
    cases hx : (detect cfg' llm' u' st' text' hist').1.category <;> decide

lemma labelStep_eq_of_mem : ∀ (labels : List (MirsCategory × List Char)) (normalized : List Char)
    (key : MirsCategory) (label : List Char),
    (key, label) ∈ labels →
    (normalized = lowerList (categoryKey key) ∨ normalized = lowerList label) →
    (∀ k l, (k, l) ∈ labels →
      (normalized = lowerList (categoryKey k) ∨ normalized = lowerList l) → k = key) →
    labelStep labels normalized = some key := by
  intro labels
  induction labels with
  | nil => intro normalized key label hmem _ _; cases hmem
  | cons hd rest ih =>
    intro normalized key label hmem hmatch huniq
    obtain ⟨k0, l0⟩ := hd
    unfold labelStep
    by_cases hc : normalized = lowerList (categoryKey k0) ∨ normalized = lowerList l0
    · rw [if_pos hc, huniq k0 l0 (List.mem_cons_self _ _) hc]
    · rw [if_neg hc]
      rcases List.mem_cons.mp hmem with heq | hmem'
      · exfalso
        apply hc
        injection heq with h1 h2
        subst h1
        subst h2
        exact hmatch
      · exact ih normalized key label hmem' hmatch
          (fun k l hm hx => huniq k l (List.mem_cons_of_mem _ hm) hx)

/-- C3: any input whose normalized form equals a configured category's key
or its human-readable label (lowercased) makes `detect` return that
category with reason "direct category match", for every history, LLM
oracle, fallback flag and sticky state. The last hypothesis states that
the configuration attributes the matched text to a single category (the
configuration is an association list iterated in declaration order). -/
theorem c3_direct_label_match (cfg : DetectorConfig)
    (llm : List ConvTurn → Option (List Char × List Char)) (u : Bool)
    (st : Option MirsCategory) (hist : List ConvTurn)
    (text : List Char) (key : MirsCategory) (label : List Char)
    (hmem : (key, label) ∈ cfg.categoryLabels)
    (hmatch : normalizeText text = lowerList (categoryKey key) ∨
      normalizeText text = lowerList label)
    (huniq : ∀ k l, (k, l) ∈ cfg.categoryLabels →
      (normalizeText text = lowerList (categoryKey k) ∨ normalizeText text = lowerList l) →
      k = key) :
    detect cfg llm u st text hist = (⟨key, directMatchReason⟩, some key) := by
  unfold detect
  rw [labelStep_eq_of_mem cfg.categoryLabels (normalizeText text) key label hmem hmatch huniq]

lemma findTrigger_eq_none : ∀ (pats : List (List Char)) (normalized userText : List Char),
    (∀ p ∈ pats, regexTestI p normalized = true → quotedTest p userText = true) →
    findTrigger pats normalized userText = none := by
  intro pats
  induction pats with
  | nil => intro _ _ _; rfl
  | cons p rest ih =>
    intro normalized userText h
    unfold findTrigger
    by_cases hr : regexTestI p normalized = true
    · rw [if_pos hr, if_pos (h p (List.mem_cons_self _ _) hr)]
      exact ih normalized userText (fun q hq hrq => h q (List.mem_cons_of_mem _ hq) hrq)
    · rw [if_neg hr]
      exact ih normalized userText (fun q hq hrq => h q (List.mem_cons_of_mem _ hq) hrq)

lemma triggerStep_eq_none : ∀ (syns : List (MirsCategory × List (List Char)))
    (normalized userText : List Char),
    (∀ cat pats, (cat, pats) ∈ syns →
      ∀ p ∈ pats, regexTestI p normalized = true → quotedTest p userText = true) →
    triggerStep syns normalized userText = none := by
  intro syns
  induction syns with
  | nil => intro _ _ _; rfl
  | cons hd rest ih =>
    intro normalized userText h
    obtain ⟨cat, pats⟩ := hd
    unfold triggerStep
    rw [findTrigger_eq_none pats normalized userText (h cat pats (List.mem_cons_self _ _))]
    exact ih normalized userText (fun c ps hm => h c ps (List.mem_cons_of_mem _ hm))

/-- C1 (amended): when every trigger pattern that tests true on the
normalized text is bracketed by quote characters in the original text in
the sense of the source's check (some occurrence of the pattern in the
original has a quote character before it and after it with no line
terminator in between, matched case-insensitively), the trigger step fires
for no pattern and `detect` behaves exactly as with an empty trigger
table: resolution falls through to sticky/default (or the LLM fallback).
The skip is NOT guaranteed for a quoted occurrence whose interior
whitespace was changed by normalization or that spans a line break; see
the counterexample. -/
theorem c1_quoted_trigger_skipped (cfg : DetectorConfig)
    (llm : List ConvTurn → Option (List Char × List Char)) (u : Bool)
    (st : Option MirsCategory) (text : List Char) (hist : List ConvTurn)
    (hq : ∀ cat pats, (cat, pats) ∈ cfg.synonyms →
      ∀ p ∈ pats, regexTestI p (normalizeText text) = true → quotedTest p text = true) :
    detect cfg llm u st text hist =
      detect ⟨cfg.categoryLabels, cfg.mirsCategories, []⟩ llm u st text hist := by
  unfold detect
  rw [triggerStep_eq_none cfg.synonyms (normalizeText text) text hq]
  rfl

/-- The configuration used by the quoted-trigger counterexample: the
spec's own example of an AGREE trigger pattern, "treatment options". -/
def cfgC1 : DetectorConfig :=
  { categoryLabels := []
    mirsCategories := []
    synonyms := [(MirsCategory.AGREE, ["treatment options".data])] }

/-- An input whose only occurrence of the trigger phrase lies inside
straight double quotes in the original text, with a line break between the
opening quote and the phrase. -/
def userTextC1 : List Char := "\"hello\ntreatment options\"".data

/-- C1 counterexample: on `userTextC1` the sole occurrence of the AGREE
trigger phrase "treatment options" lies inside straight double quotes in
the original text (the whole input is one quoted block, second conjunct),
yet `detect` returns AGREE from the trigger step (first conjunct), because
the naive bracketing regex cannot see across the line break. This refutes
the claim that a trigger whose only match lies inside quotation marks
never switches the category. -/
theorem c1_counterexample :
    detect cfgC1 (fun _ => none) false none userTextC1 [] =
      (⟨MirsCategory.AGREE, triggerReason ("treatment options".data)⟩,
        some MirsCategory.AGREE) ∧
    userTextC1 = '"' :: ("hello\n".data ++ "treatment options".data ++ ['"']) := by
  constructor
  · decide
  · decide

lemma collectRev_eq_take (maxChars : Nat) : ∀ (l : List ConvTurn) (total : Nat),
    ∃ k, collectRev maxChars total l = (l.take k).map renderPiece := by
  intro l
  induction l with
  | nil => intro total; exact ⟨0, rfl⟩
  | cons t rest ih =>
    intro total
    unfold collectRev
    by_cases hc : maxChars < total + ((renderPiece t).length + 1)
    · rw [if_pos hc]
      exact ⟨0, rfl⟩
    · rw [if_neg hc]
      obtain ⟨k, hk⟩ := ih (total + ((renderPiece t).length + 1))
      exact ⟨k + 1, by rw [hk]; rfl⟩

/-- C2 (amended): the snippet built by `createHistorySnippet` is the
newline-join of the rendered pieces of a contiguous suffix of the history
in chronological order, and that suffix ends with (hence contains) the most
recent turn provided that turn's rendered piece plus one fits the budget.
Without that bound the most recent turn can be dropped entirely; see the
counterexample. -/
theorem c2_snippet_structure (maxChars : Nat) (history : List ConvTurn) (t : ConvTurn)
    (hlast : history.getLast? = some t)
    (hfit : (renderPiece t).length + 1 ≤ maxChars) :
    ∃ s, s <:+ history ∧
      createHistorySnippet maxChars history = joinNl (s.map renderPiece) ∧
      s.getLast? = some t := by
  rcases hc : history.reverse with _ | ⟨t', tail⟩
  · rw [← List.head?_reverse, hc] at hlast
    cases hlast
  · have ht' : t' = t := by
      rw [← List.head?_reverse, hc] at hlast
      injection hlast
    rw [ht'] at hc
    have hcollect : collectRev maxChars 0 (t :: tail) =
        renderPiece t :: collectRev maxChars (0 + ((renderPiece t).length + 1)) tail := by
      simp only [collectRev]
      rw [if_neg (by omega)]
    obtain ⟨k, hk⟩ := collectRev_eq_take maxChars tail (0 + ((renderPiece t).length + 1))
    refine ⟨((t :: tail).take (k + 1)).reverse, ?_, ?_, ?_⟩
    · refine ⟨((t :: tail).drop (k + 1)).reverse, ?_⟩
      rw [← List.reverse_append, List.take_append_drop, ← hc, List.reverse_reverse]
    · unfold createHistorySnippet
      rw [hc, hcollect, hk, List.map_reverse]
      rfl
    · rw [List.take_succ_cons, List.reverse_cons, List.getLast?_concat]

lemma trimCollect_all (maxChars : Nat) : ∀ (l : List ConvTurn) (total : Nat) (b : Bool),
    total + (l.map (fun t => (jsTrim t.content).length + 20)).sum < maxChars →
    trimCollect maxChars total b l = l := by
  intro l
  induction l with
  | nil => intro _ _ _; rfl
  | cons t rest ih =>
    intro total b hlt
    simp only [List.map_cons, List.sum_cons] at hlt
    unfold trimCollect
    rw [if_neg (by intro hand; omega)]
    congr 1
    exact ih (total + ((jsTrim t.content).length + 20)) true (by omega)

lemma trimCollect_is_prefix (maxChars : Nat) : ∀ (l : List ConvTurn) (total : Nat) (b : Bool),
    ∃ r, trimCollect maxChars total b l ++ r = l := by
  intro l
  induction l with
  | nil => intro _ _; exact ⟨[], rfl⟩
  | cons t rest ih =>
    intro total b
    unfold trimCollect
    by_cases hc : maxChars ≤ total + ((jsTrim t.content).length + 20) ∧ b = true
    · rw [if_pos hc]
      exact ⟨t :: rest, rfl⟩
    · rw [if_neg hc]
      obtain ⟨r, hr⟩ := ih (total + ((jsTrim t.content).length + 20)) true
      exact ⟨r, by rw [List.cons_append, hr]⟩

/-- C8: `trimHistoryToCharLimit` (i) returns the history unchanged when the
total accumulated length (trimmed content plus the per-turn overhead of 20)
stays under the budget — hence is idempotent on such histories; (ii) always
returns a contiguous suffix of the input in chronological order; and
(iii) retains the most recent turn of any non-empty history, even when that
turn alone meets or exceeds the budget. -/
theorem c8_trim_properties (maxChars : Nat) (history : List ConvTurn) :
    ((history.map (fun t => (jsTrim t.content).length + 20)).sum < maxChars →
      trimHistoryToCharLimit maxChars history = history) ∧
    trimHistoryToCharLimit maxChars history <:+ history ∧
    (∀ t, history.getLast? = some t →
      (trimHistoryToCharLimit maxChars history).getLast? = some t) := by
  refine ⟨?_, ?_, ?_⟩
  · intro hlt
    unfold trimHistoryToCharLimit
    rw [trimCollect_all maxChars history.reverse 0 false ?_, List.reverse_reverse]
    rw [List.map_reverse, List.sum_reverse]
    omega
  · unfold trimHistoryToCharLimit
    obtain ⟨r, hr⟩ := trimCollect_is_prefix maxChars history.reverse 0 false
    exact ⟨r.reverse, by rw [← List.reverse_append, hr, List.reverse_reverse]⟩
  · intro t hlast
    unfold trimHistoryToCharLimit
    rcases hc : history.reverse with _ | ⟨t', tail⟩
    · rw [← List.head?_reverse, hc] at hlast
      cases hlast
    · have ht' : t' = t := by
        rw [← List.head?_reverse, hc] at hlast
        injection hlast
      subst ht'
      unfold trimCollect
      rw [if_neg (by simp)]
      rw [List.reverse_cons, List.getLast?_concat]

lemma runStreamAux_abort (aborted : Nat → Bool) : ∀ (deltas : List (List Char))
    (i j : Nat) (acc : List Char),
    j < deltas.length → aborted (i + j) = true → (∀ k, k < j → aborted (i + k) = false) →
    runStreamAux aborted acc deltas i = (deltas.take j, none) := by
  intro deltas
  induction deltas with
  | nil => intro i j acc hj _ _; exact absurd hj (Nat.not_lt_zero j)
  | cons d rest ih =>
    intro i j acc hj habt hmin
    cases j with
    | zero =>
      rw [Nat.add_zero] at habt
      unfold runStreamAux
      rw [if_pos habt]
      rfl
    | succ j' =>
      have h0 : aborted i = false := by
        have := hmin 0 (Nat.succ_pos j')
        rwa [Nat.add_zero] at this
      unfold runStreamAux
      rw [if_neg (by rw [h0]; exact Bool.false_ne_true)]
      have hr := ih (i + 1) j' (acc ++ d)
        (by simpa [Nat.succ_lt_succ_iff] using hj)
        (by rw [show i + 1 + j' = i + (j' + 1) by omega]; exact habt)
        (fun k hk => by
          rw [show i + 1 + k = i + (k + 1) by omega]
          exact hmin (k + 1) (by omega))
      rw [hr]
      rfl

/-- C9: in the streamed `sendMessage` run, if the abort signal is observed
at check index `j` (true there, false at all earlier checks) before the
completion stream is exhausted, then exactly the deltas before `j` are
emitted — none at or after the observation — and the assistant turn is
never persisted (the assistant-role `saveMessage` call is not reached, so
no partial response is saved). -/
theorem c9_abort_stops_and_skips_save (aborted : Nat → Bool) (deltas : List (List Char))
    (j : Nat) (hj : j < deltas.length) (habt : aborted j = true)
    (hmin : ∀ k, k < j → aborted k = false) :
    runStream aborted deltas = (deltas.take j, none) := by
  unfold runStream
  exact runStreamAux_abort aborted deltas 0 j []
    hj (by rwa [Nat.zero_add]) (fun k hk => by rw [Nat.zero_add]; exact hmin k hk)

/-- C2 counterexample: with budget 5, the single (hence most recent) turn's
rendered piece costs 21 > 5, and `createHistorySnippet` returns the empty
snippet — the most recent turn is not included, refuting the claim that the
snippet always contains at least the most recent turn. -/
theorem c2_counterexample :
    createHistorySnippet 5 [⟨Role.user, "hello world".data⟩] = [] ∧
    5 < (renderPiece ⟨Role.user, "hello world".data⟩).length + 1 := by
  decide

/-- Modelled from the spec: a small concrete instance of the configuration
tables of `mirs-categories.ts` (absent from the repository source), built
from the specification's examples — the OPEN label "Opens the Discussion",
the GATH item "agenda setting", and the AGREE trigger phrase
"treatment options". -/
def sampleCfg : DetectorConfig :=
  { categoryLabels := [(MirsCategory.OPEN, "Opens the Discussion".data)]
    mirsCategories := [(MirsCategory.GATH, ["agenda setting".data])]
    synonyms := [(MirsCategory.AGREE, ["treatment options".data])] }

/-- An input where the trigger phrase occurs verbatim inside straight
double quotes on a single line of the original text. -/
def userTextC1Quoted : List Char :=
  "the patient said \"treatment options\" and i agreed".data

theorem c1_witness :
    detect sampleCfg (fun _ => none) true (some MirsCategory.PERS) userTextC1Quoted [] =
      detect ⟨sampleCfg.categoryLabels, sampleCfg.mirsCategories, []⟩ (fun _ => none) true
        (some MirsCategory.PERS) userTextC1Quoted [] :=
  c1_quoted_trigger_skipped sampleCfg (fun _ => none) true (some MirsCategory.PERS)
    userTextC1Quoted []
    (by
      intro cat pats hm p hp hr
      have hm' : (cat, pats) ∈ [(MirsCategory.AGREE, ["treatment options".data])] := hm
      have h2 := List.mem_singleton.mp hm'
      injection h2 with hcat hpats
      subst hpats
      have h3 := List.mem_singleton.mp hp
      subst h3
      decide)

theorem c2_witness :
    ∃ s, s <:+ [(⟨Role.user, "hi there".data⟩ : ConvTurn)] ∧
      createHistorySnippet 30 [⟨Role.user, "hi there".data⟩] = joinNl (s.map renderPiece) ∧
      s.getLast? = some ⟨Role.user, "hi there".data⟩ :=
  c2_snippet_structure 30 [⟨Role.user, "hi there".data⟩] ⟨Role.user, "hi there".data⟩
    (by decide) (by decide)

theorem c3_witness :
    detect sampleCfg (fun _ => some ("REL".data, "llm guess".data)) true
      (some MirsCategory.PERS) " Open ".data [] =
      (⟨MirsCategory.OPEN, directMatchReason⟩, some MirsCategory.OPEN) :=
  c3_direct_label_match sampleCfg (fun _ => some ("REL".data, "llm guess".data)) true
    (some MirsCategory.PERS) [] (" Open ".data) MirsCategory.OPEN
    ("Opens the Discussion".data)
    (by decide)
    (Or.inl (by decide))
    (by
      intro k l hm hx
      have hm' : (k, l) ∈ [(MirsCategory.OPEN, "Opens the Discussion".data)] := hm
      have h2 := List.mem_singleton.mp hm'
      exact congrArg Prod.fst h2)

theorem c4_witness :
    detect sampleCfg (fun _ => some ("GATH".data, "llm".data)) true
      (some MirsCategory.PERS) "thanks".data [] =
      (⟨MirsCategory.PERS, keptPreviousReason⟩, some MirsCategory.PERS) :=
  c4_kept_previous sampleCfg (fun _ => some ("GATH".data, "llm".data)) true
    MirsCategory.PERS ("thanks".data) [] (by decide) (by decide) (by decide)

theorem c5_witness :
    detect sampleCfg (fun _ => some ("GATH".data, "llm".data)) false none "".data [] =
      (⟨MirsCategory.OPEN, defaultReason⟩, some MirsCategory.OPEN) :=
  c5_default_no_signal sampleCfg (fun _ => some ("GATH".data, "llm".data))
    ("".data) [] (by decide) (by decide) (by decide)

theorem c7_witness :
    (detect sampleCfg (fun _ => some ("UNKNOWN".data, "llm guess".data)) true none
      "zzz".data [] =
      (⟨MirsCategory.OPEN, defaultReason⟩, some MirsCategory.OPEN)) ∧
    ∀ (cfg' : DetectorConfig) (llm' : List ConvTurn → Option (List Char × List Char))
      (u' : Bool) (st' : Option MirsCategory) (text' : List Char) (hist' : List ConvTurn),
      (detect cfg' llm' u' st' text' hist').1.category ∈
        [MirsCategory.OPEN, MirsCategory.GATH, MirsCategory.PERS, MirsCategory.SHARE,
         MirsCategory.AGREE, MirsCategory.CLOSE, MirsCategory.REL] :=
  c7_llm_failure_defaults sampleCfg (fun _ => some ("UNKNOWN".data, "llm guess".data))
    ("zzz".data) [] (by decide) (by decide) (by decide)
    (by
      intro s r h
      injection h with h1
      injection h1 with hs hr
      subst hs
      decide)

def histC8 : List ConvTurn :=
  [⟨Role.user, "aaaa".data⟩, ⟨Role.assistant, "bbbb".data⟩]

theorem c8_witness :
    trimHistoryToCharLimit 100 histC8 = histC8 ∧
    trimHistoryToCharLimit 30 histC8 <:+ histC8 ∧
    (trimHistoryToCharLimit 30 histC8).getLast? = some ⟨Role.assistant, "bbbb".data⟩ :=
  ⟨(c8_trim_properties 100 histC8).1 (by decide),
   (c8_trim_properties 30 histC8).2.1,
   (c8_trim_properties 30 histC8).2.2 ⟨Role.assistant, "bbbb".data⟩ (by decide)⟩

theorem c9_witness :
    runStream (fun i => decide (1 ≤ i)) ["ab".data, "cd".data, "ef".data] =
      (["ab".data], none) :=
  c9_abort_stops_and_skips_save (fun i => decide (1 ≤ i))
    ["ab".data, "cd".data, "ef".data] 1
    (by decide) (by decide)
    (fun k hk => by
      have hk0 : k = 0 := by omega
      subst hk0
      decide)

end RubricFeedback
